import Mathlib

/-!
Verification of the path-prefix normalization routines of the easy-mcp
frontend: `normalizeRouterBase` and `normalizeRequestPrefix` from
`src/frontend/src/config/router.js`, and the duplicated `normalizeBase`
from the Vite build configuration.

JavaScript strings are embedded as `List Char`; a nullable string value
(`null` / `undefined` / a string) is embedded as `Option (List Char)`
with `none` standing for `null`/`undefined`.  The JS expression
`base.trim().replace(/^\/+|\/+$/g, '')` is embedded character by
character: `trim` drops JS whitespace at both ends, and the regex
replacement drops the run of `/` at each end of the string.
-/

namespace EasyMcp

/-- The set of characters removed by JavaScript `String.prototype.trim`:
the ECMAScript WhiteSpace and LineTerminator code points. -/
def isJsWhitespace (c : Char) : Bool :=
  c == ' ' || c == '\t' || c == '\n' || c == '\r' ||
  c == '\x0b' || c == '\x0c' || c == '\u00A0' || c == '\uFEFF' ||
  c == '\u1680' || (decide ('\u2000' ≤ c) && decide (c ≤ '\u200A')) ||
  c == '\u2028' || c == '\u2029' || c == '\u202F' || c == '\u205F' || c == '\u3000'

/-- Drop the longest run of characters satisfying `p` at the end of `l`. -/
def dropTrailing (p : Char → Bool) (l : List Char) : List Char :=
  (l.reverse.dropWhile p).reverse

/-- JavaScript `s.trim()` on the character list of `s`. -/
def jsTrim (l : List Char) : List Char :=
  dropTrailing isJsWhitespace (l.dropWhile isJsWhitespace)

def isSlash (c : Char) : Bool := c == '/'

/-- JavaScript `s.replace(/^\/+|\/+$/g, '')`: remove the run of `/`
characters at the start and at the end of the string; interior slashes
are untouched. -/
def stripEdgeSlashes (l : List Char) : List Char :=
  dropTrailing isSlash (l.dropWhile isSlash)

/-- `normalizeRouterBase` from `src/frontend/src/config/router.js`.
`none` is a `null`/`undefined` argument (falsy, like the empty string). -/
def normalizeRouterBase (base : Option (List Char)) : List Char :=
  match base with
  | none => ['/']
  | some b =>
    if b = [] ∨ jsTrim b = [] ∨ b = ['/'] then ['/']
    else
      let normalized := stripEdgeSlashes (jsTrim b)
      if normalized = [] then ['/']
      else '/' :: normalized ++ ['/']

/-- `normalizeRequestPrefix` from `src/frontend/src/config/router.js`. -/
def normalizeRequestPrefix (base : Option (List Char)) : List Char :=
  match base with
  | none => []
  | some b =>
    if b = [] ∨ jsTrim b = [] ∨ b = ['/'] then []
    else
      let normalized := stripEdgeSlashes (jsTrim b)
      if normalized = [] then []
      else '/' :: normalized

/-- `normalizeBase` from the Vite build configuration (the duplicated
copy of the normalizer).  Its guard is `!base || base === '/'`, without
the `base.trim() === ''` test of the router copy. -/
def normalizeBase (base : Option (List Char)) : List Char :=
  match base with
  | none => ['/']
  | some b =>
    if b = [] ∨ b = ['/'] then ['/']
    else
      let normalized := stripEdgeSlashes (jsTrim b)
      if normalized = [] then ['/']
      else '/' :: normalized ++ ['/']

/-- JavaScript truthiness of a nullable string: `null`, `undefined` and
`''` are falsy; every other string (whitespace included) is truthy. -/
def truthy : Option (List Char) → Bool
  | none => false
  | some s => !s.isEmpty

/-- A method call `v.trim()` on a JavaScript value: throws a `TypeError`
(embedded as `none`) when `v` is `null`/`undefined`. -/
def jsValTrim : Option (List Char) → Option (List Char)
  | none => none
  | some s => some (jsTrim s)

/-- Exception-aware evaluation of `normalizeRouterBase`, following the
evaluation order of the source: the short-circuit guard `!base || ...`
is what keeps the `base.trim()` method calls off `null`/`undefined`.
A result of `none` is a thrown `TypeError`. -/
def normalizeRouterBaseE (base : Option (List Char)) : Option (List Char) :=
  if truthy base = false then some ['/']
  else
    match jsValTrim base with
    | none => none
    | some t =>
      if t = [] ∨ base = some ['/'] then some ['/']
      else
        match jsValTrim base with
        | none => none
        | some t2 =>
          let normalized := stripEdgeSlashes t2
          if normalized = [] then some ['/']
          else some ('/' :: normalized ++ ['/'])

/-- Exception-aware evaluation of `normalizeRequestPrefix`; a result of
`none` is a thrown `TypeError`. -/
def normalizeRequestPrefixE (base : Option (List Char)) : Option (List Char) :=
  if truthy base = false then some []
  else
    match jsValTrim base with
    | none => none
    | some t =>
      if t = [] ∨ base = some ['/'] then some []
      else
        match jsValTrim base with
        | none => none
        | some t2 =>
          let normalized := stripEdgeSlashes t2
          if normalized = [] then some []
          else some ('/' :: normalized)

/-- JavaScript `s.slice(1, -1)` on the character list of `s`. -/
def sliceOneToMinusOne (l : List Char) : List Char :=
  (l.drop 1).dropLast

/-- `true` when the string contains two adjacent `/` characters, that is
the substring `//`. -/
def hasDoubleSlash : List Char → Bool
  | [] => false
  | [_] => false
  | a :: b :: rest => (isSlash a && isSlash b) || hasDoubleSlash (b :: rest)

/-- The core extracted by the spec's stripping rule: trim surrounding
whitespace, then strip all leading and trailing `/` characters. -/
def specCore (l : List Char) : List Char := stripEdgeSlashes (jsTrim l)

/-- The algorithm of the spec for `normalizeRouterBase`, written from its
words: if the input is empty, trims to empty, or equals exactly `/`,
return `/`; otherwise compute the core; if the core is empty return `/`;
otherwise return `/` ++ core ++ `/`. -/
def spec_normalizeRouterBase (base : Option (List Char)) : List Char :=
  match base with
  | none => ['/']
  | some b =>
    if b = [] ∨ jsTrim b = [] ∨ b = ['/'] then ['/']
    else if specCore b = [] then ['/']
    else '/' :: specCore b ++ ['/']

/-- The algorithm of the spec for `normalizeRequestPrefix`, written from
its words: the same stripping rule computes the core; if the input is
empty, whitespace-only or `/`, or the core is empty, return the empty
string; otherwise return `/` ++ core with no trailing slash. -/
def spec_normalizeRequestPrefix (base : Option (List Char)) : List Char :=
  match base with
  | none => []
  | some b =>
    if b = [] ∨ jsTrim b = [] ∨ b = ['/'] ∨ specCore b = [] then []
    else '/' :: specCore b

/-! ### Structural lemmas about `dropWhile`, `dropTrailing` and the strippers -/

theorem head?_dropWhile_false (p : Char → Bool) (l : List Char) (a : Char)
    (h : (l.dropWhile p).head? = some a) : p a = false := by
  induction l with
  | nil => simp at h
  | cons x xs ih =>
    rw [List.dropWhile_cons] at h
    by_cases hx : p x
    · rw [if_pos hx] at h
      exact ih h
    · rw [if_neg hx] at h
      simp only [List.head?_cons, Option.some.injEq] at h
      subst h
      exact Bool.eq_false_iff.mpr hx

theorem dropWhile_eq_self_of_head (p : Char → Bool) (l : List Char)
    (h : ∀ a, l.head? = some a → p a = false) : l.dropWhile p = l := by
  cases l with
  | nil => rfl
  | cons x xs =>
    rw [List.dropWhile_cons, if_neg]
    simp [h x rfl]

theorem dropTrailing_prefix_self (p : Char → Bool) (l : List Char) : dropTrailing p l <+: l := by
  have h : (l.reverse.dropWhile p).reverse <+: l.reverse.reverse :=
    List.reverse_prefix.mpr (List.dropWhile_suffix p)
  simpa [dropTrailing] using h

theorem getLast?_dropTrailing_false (p : Char → Bool) (l : List Char) (a : Char)
    (h : (dropTrailing p l).getLast? = some a) : p a = false := by
  rw [dropTrailing, List.getLast?_reverse] at h
  exact head?_dropWhile_false p l.reverse a h

theorem head?_of_prefix {l₁ l₂ : List Char} (h : l₁ <+: l₂) (a : Char)
    (ha : l₁.head? = some a) : l₂.head? = some a := by
  obtain ⟨t, rfl⟩ := h
  cases l₁ with
  | nil => simp at ha
  | cons x xs =>
    simp only [List.cons_append, List.head?_cons] at ha ⊢
    exact ha

theorem head?_dropTrailing (p : Char → Bool) (l : List Char) (a : Char)
    (h : (dropTrailing p l).head? = some a) : l.head? = some a :=
  head?_of_prefix (dropTrailing_prefix_self p l) a h

theorem dropTrailing_eq_self_of_getLast (p : Char → Bool) (l : List Char)
    (h : ∀ a, l.getLast? = some a → p a = false) : dropTrailing p l = l := by
  unfold dropTrailing
  rw [dropWhile_eq_self_of_head p l.reverse
      (fun a ha => h a (by rwa [List.head?_reverse] at ha)),
    List.reverse_reverse]

theorem stripEdgeSlashes_head (l : List Char) (a : Char)
    (h : (stripEdgeSlashes l).head? = some a) : isSlash a = false :=
  head?_dropWhile_false isSlash l a (head?_dropTrailing isSlash (l.dropWhile isSlash) a h)

theorem stripEdgeSlashes_getLast (l : List Char) (a : Char)
    (h : (stripEdgeSlashes l).getLast? = some a) : isSlash a = false :=
  getLast?_dropTrailing_false isSlash (l.dropWhile isSlash) a h

theorem stripEdgeSlashes_eq_self (l : List Char)
    (h1 : ∀ a, l.head? = some a → isSlash a = false)
    (h2 : ∀ a, l.getLast? = some a → isSlash a = false) :
    stripEdgeSlashes l = l := by
  unfold stripEdgeSlashes
  rw [dropWhile_eq_self_of_head isSlash l h1]
  exact dropTrailing_eq_self_of_getLast isSlash l h2

theorem dropTrailing_infix_self (p : Char → Bool) (l : List Char) : dropTrailing p l <:+: l :=
  (dropTrailing_prefix_self p l).isInfix

theorem jsTrim_infix_self (l : List Char) : jsTrim l <:+: l :=
  (dropTrailing_infix_self isJsWhitespace (l.dropWhile isJsWhitespace)).trans
    (List.dropWhile_suffix isJsWhitespace).isInfix

theorem stripEdgeSlashes_infix_self (l : List Char) : stripEdgeSlashes l <:+: l :=
  (dropTrailing_infix_self isSlash (l.dropWhile isSlash)).trans
    (List.dropWhile_suffix isSlash).isInfix

/-! ### Lemmas about `hasDoubleSlash` -/

theorem hasDoubleSlash_append (l₁ l₂ : List Char)
    (h : hasDoubleSlash (l₁ ++ l₂) = false) :
    hasDoubleSlash l₁ = false ∧ hasDoubleSlash l₂ = false := by
  induction l₁ with
  | nil => exact ⟨rfl, h⟩
  | cons a t ih =>
    cases t with
    | nil =>
      cases l₂ with
      | nil => exact ⟨rfl, rfl⟩
      | cons b r =>
        rw [List.singleton_append, hasDoubleSlash, Bool.or_eq_false_iff] at h
        exact ⟨rfl, h.2⟩
    | cons c t2 =>
      simp only [List.cons_append] at h
      rw [hasDoubleSlash, Bool.or_eq_false_iff] at h
      have h2 : hasDoubleSlash ((c :: t2) ++ l₂) = false := by simpa using h.2
      obtain ⟨hh1, hh2⟩ := ih h2
      rw [hasDoubleSlash, Bool.or_eq_false_iff]
      exact ⟨⟨h.1, hh1⟩, hh2⟩

theorem hasDoubleSlash_of_infix {m l : List Char} (h : m <:+: l)
    (hl : hasDoubleSlash l = false) : hasDoubleSlash m = false := by
  obtain ⟨u, v, rfl⟩ := h
  rw [List.append_assoc] at hl
  exact (hasDoubleSlash_append m v ((hasDoubleSlash_append u (m ++ v) hl).2)).1

theorem hasDoubleSlash_snoc (c : List Char)
    (h : hasDoubleSlash c = false)
    (hl : ∀ a, c.getLast? = some a → isSlash a = false) :
    hasDoubleSlash (c ++ ['/']) = false := by
  induction c with
  | nil => rfl
  | cons a t ih =>
    cases t with
    | nil =>
      have ha : isSlash a = false := hl a rfl
      simp [hasDoubleSlash, ha]
    | cons b r =>
      rw [hasDoubleSlash, Bool.or_eq_false_iff] at h
      have hrec : hasDoubleSlash (b :: (r ++ ['/'])) = false := by
        have hr := ih h.2 (fun x hx => hl x (by rw [List.getLast?_cons_cons]; exact hx))
        simpa using hr
      show hasDoubleSlash ((a :: b :: r) ++ ['/']) = false
      simp only [List.cons_append]
      rw [hasDoubleSlash, Bool.or_eq_false_iff]
      exact ⟨h.1, hrec⟩

theorem hasDoubleSlash_wrap (c : List Char) (hne : c ≠ [])
    (h : hasDoubleSlash c = false)
    (h1 : ∀ a, c.head? = some a → isSlash a = false)
    (h2 : ∀ a, c.getLast? = some a → isSlash a = false) :
    hasDoubleSlash (('/' :: c) ++ ['/']) = false := by
  cases c with
  | nil => exact absurd rfl hne
  | cons a t =>
    have ha : isSlash a = false := h1 a rfl
    simp only [List.cons_append]
    rw [hasDoubleSlash, Bool.or_eq_false_iff]
    constructor
    · simp [ha]
    · have hs := hasDoubleSlash_snoc (a :: t) h h2
      simpa using hs

/-! ### Branch characterizations of the normalizers -/

theorem normalizeRouterBase_some (s : List Char) :
    normalizeRouterBase (some s) =
      if s = [] ∨ jsTrim s = [] ∨ s = ['/'] then ['/']
      else if stripEdgeSlashes (jsTrim s) = [] then ['/']
      else '/' :: stripEdgeSlashes (jsTrim s) ++ ['/'] := rfl

theorem normalizeRequestPrefix_some (s : List Char) :
    normalizeRequestPrefix (some s) =
      if s = [] ∨ jsTrim s = [] ∨ s = ['/'] then []
      else if stripEdgeSlashes (jsTrim s) = [] then []
      else '/' :: stripEdgeSlashes (jsTrim s) := rfl

theorem normalizeBase_some (s : List Char) :
    normalizeBase (some s) =
      if s = [] ∨ s = ['/'] then ['/']
      else if stripEdgeSlashes (jsTrim s) = [] then ['/']
      else '/' :: stripEdgeSlashes (jsTrim s) ++ ['/'] := rfl

theorem normalizeRouterBase_cases (b : Option (List Char)) :
    normalizeRouterBase b = ['/'] ∨
    ∃ s, b = some s ∧ stripEdgeSlashes (jsTrim s) ≠ [] ∧
      normalizeRouterBase b = ('/' :: stripEdgeSlashes (jsTrim s)) ++ ['/'] := by
  match b with
  | none => exact Or.inl rfl
  | some s =>
    rw [normalizeRouterBase_some]
    by_cases h1 : s = [] ∨ jsTrim s = [] ∨ s = ['/']
    · exact Or.inl (if_pos h1)
    · by_cases h2 : stripEdgeSlashes (jsTrim s) = []
      · rw [if_neg h1, if_pos h2]
        exact Or.inl rfl
      · rw [if_neg h1, if_neg h2]
        exact Or.inr ⟨s, rfl, h2, rfl⟩

theorem normalizeRequestPrefix_cases (b : Option (List Char)) :
    normalizeRequestPrefix b = [] ∨
    ∃ s, b = some s ∧ stripEdgeSlashes (jsTrim s) ≠ [] ∧
      normalizeRequestPrefix b = '/' :: stripEdgeSlashes (jsTrim s) := by
  match b with
  | none => exact Or.inl rfl
  | some s =>
    rw [normalizeRequestPrefix_some]
    by_cases h1 : s = [] ∨ jsTrim s = [] ∨ s = ['/']
    · exact Or.inl (if_pos h1)
    · by_cases h2 : stripEdgeSlashes (jsTrim s) = []
      · rw [if_neg h1, if_pos h2]
        exact Or.inl rfl
      · rw [if_neg h1, if_neg h2]
        exact Or.inr ⟨s, rfl, h2, rfl⟩

/-! ### The claims -/

/-- C1 (counterexample): the claim "normalizeRouterBase(s) never contains
the substring //" is false: for the input `a//b` the result is `/a//b/`,
which contains `//` — the interior doubled slash passes straight through
the edge-only stripping. -/
theorem C1_counterexample :
    normalizeRouterBase (some ['a', '/', '/', 'b']) = ['/', 'a', '/', '/', 'b', '/'] ∧
    hasDoubleSlash (normalizeRouterBase (some ['a', '/', '/', 'b'])) = true := by decide

/-- C1 (amended): for every input, `normalizeRouterBase` starts with `/`
and ends with `/`; and whenever the input itself contains no `//`, the
result contains no `//` either (interior doubled slashes of the input
are the only source of doubled slashes in the output). -/
theorem C1_routerBase_shape (b : Option (List Char)) :
    (normalizeRouterBase b).head? = some '/' ∧
    (normalizeRouterBase b).getLast? = some '/' ∧
    (hasDoubleSlash (b.getD []) = false → hasDoubleSlash (normalizeRouterBase b) = false) := by
  rcases normalizeRouterBase_cases b with h | ⟨s, rfl, hne, h⟩
  · rw [h]
    exact ⟨rfl, rfl, fun _ => rfl⟩
  · rw [h]
    refine ⟨?_, ?_, ?_⟩
    · simp
    · rw [List.getLast?_concat]
    · intro hin
      have hs : hasDoubleSlash s = false := hin
      have hcf : hasDoubleSlash (stripEdgeSlashes (jsTrim s)) = false :=
        hasDoubleSlash_of_infix
          ((stripEdgeSlashes_infix_self (jsTrim s)).trans (jsTrim_infix_self s)) hs
      exact hasDoubleSlash_wrap (stripEdgeSlashes (jsTrim s)) hne hcf
        (stripEdgeSlashes_head (jsTrim s)) (stripEdgeSlashes_getLast (jsTrim s))

/-- C1 witness: a concrete run of the amended theorem, at input `app`. -/
theorem C1_routerBase_shape_witness :
    hasDoubleSlash ((some ['a', 'p', 'p']).getD []) = false ∧
    hasDoubleSlash (normalizeRouterBase (some ['a', 'p', 'p'])) = false :=
  ⟨by decide, (C1_routerBase_shape (some ['a', 'p', 'p'])).2.2 (by decide)⟩

/-- C2: the Vite-config normalizer `normalizeBase` and the router-config
normalizer `normalizeRouterBase` agree on every input — every string and
also `null`/`undefined`.  The guards differ (`normalizeBase` omits the
`base.trim() === ''` test), but a whitespace-only input falls through to
the empty-core check and still yields `/`. -/
theorem C2_normalizeBase_eq_normalizeRouterBase (b : Option (List Char)) :
    normalizeBase b = normalizeRouterBase b := by
  match b with
  | none => rfl
  | some s =>
    rw [normalizeBase_some, normalizeRouterBase_some]
    by_cases h1 : s = [] <;> by_cases h2 : s = ['/'] <;> by_cases h3 : jsTrim s = [] <;>
      simp [h1, h2, h3, stripEdgeSlashes, dropTrailing]

/-- C3: `normalizeRouterBase` computes exactly the algorithm the spec
describes: return `/` for empty / whitespace-only / `/` inputs, else
trim, strip edge slashes into a core, return `/` for an empty core and
`/core/` otherwise, interior slashes preserved verbatim. -/
theorem C3_routerBase_algorithm (b : Option (List Char)) :
    normalizeRouterBase b = spec_normalizeRouterBase b := by
  match b with
  | none => rfl
  | some s => rfl

/-- C4: `normalizeRequestPrefix` computes exactly the algorithm the spec
describes: the same core extraction, the empty string for empty /
whitespace-only / `/` inputs or an empty core, and `/core` with no
trailing slash otherwise. -/
theorem spec_normalizeRequestPrefix_some (s : List Char) :
    spec_normalizeRequestPrefix (some s) =
      if s = [] ∨ jsTrim s = [] ∨ s = ['/'] ∨ stripEdgeSlashes (jsTrim s) = [] then []
      else '/' :: stripEdgeSlashes (jsTrim s) := rfl

theorem C4_requestPrefix_algorithm (b : Option (List Char)) :
    normalizeRequestPrefix b = spec_normalizeRequestPrefix b := by
  match b with
  | none => rfl
  | some s =>
    rw [normalizeRequestPrefix_some, spec_normalizeRequestPrefix_some]
    by_cases h1 : s = [] <;> by_cases h2 : jsTrim s = [] <;> by_cases h3 : s = ['/'] <;>
      by_cases h4 : stripEdgeSlashes (jsTrim s) = [] <;>
      simp [h1, h2, h3, h4, stripEdgeSlashes, dropTrailing]

theorem normalizeRouterBaseE_some (s : List Char) (h : s ≠ []) :
    normalizeRouterBaseE (some s) =
      if jsTrim s = [] ∨ some s = some ['/'] then some ['/']
      else if stripEdgeSlashes (jsTrim s) = [] then some ['/']
      else some ('/' :: stripEdgeSlashes (jsTrim s) ++ ['/']) := by
  unfold normalizeRouterBaseE
  rw [if_neg]
  · rfl
  · simp [truthy, h]

theorem normalizeRequestPrefixE_some (s : List Char) (h : s ≠ []) :
    normalizeRequestPrefixE (some s) =
      if jsTrim s = [] ∨ some s = some ['/'] then some []
      else if stripEdgeSlashes (jsTrim s) = [] then some []
      else some ('/' :: stripEdgeSlashes (jsTrim s)) := by
  unfold normalizeRequestPrefixE
  rw [if_neg]
  · rfl
  · simp [truthy, h]

/-- C5: both functions are total: the exception-aware evaluation (where a
string-method call on `null`/`undefined` throws) never throws on any
input — string, empty, `null` or `undefined` — and always returns the
value of the pure function.  The `!base` short-circuit guard is what
protects the `base.trim()` calls. -/
theorem C5_no_exception (b : Option (List Char)) :
    normalizeRouterBaseE b = some (normalizeRouterBase b) ∧
    normalizeRequestPrefixE b = some (normalizeRequestPrefix b) := by
  match b with
  | none => exact ⟨rfl, rfl⟩
  | some s =>
    by_cases h0 : s = []
    · subst h0
      exact ⟨rfl, rfl⟩
    · rw [normalizeRouterBaseE_some s h0, normalizeRequestPrefixE_some s h0,
        normalizeRouterBase_some, normalizeRequestPrefix_some]
      constructor <;>
      · simp only [Option.some.injEq, h0, false_or]
        by_cases hA : jsTrim s = [] ∨ s = ['/']
        · rw [if_pos hA, if_pos hA]
        · rw [if_neg hA, if_neg hA]
          by_cases hB : stripEdgeSlashes (jsTrim s) = []
          · rw [if_pos hB, if_pos hB]
          · rw [if_neg hB, if_neg hB]

/-- C6: the inputs `""` and `"/"` are treated identically, both meaning
"no prefix configured": both normalize to `/` as a router base and to
the empty string as a request prefix. -/
theorem C6_empty_eq_root :
    normalizeRouterBase (some []) = ['/'] ∧ normalizeRouterBase (some ['/']) = ['/'] ∧
    normalizeRequestPrefix (some []) = [] ∧ normalizeRequestPrefix (some ['/']) = [] := by
  decide

/-- C7: a non-empty `normalizeRequestPrefix` result starts with `/` and
never ends with `/`. -/
theorem C7_requestPrefix_shape (b : Option (List Char))
    (h : normalizeRequestPrefix b ≠ []) :
    (normalizeRequestPrefix b).head? = some '/' ∧
    (normalizeRequestPrefix b).getLast? ≠ some '/' := by
  rcases normalizeRequestPrefix_cases b with h0 | ⟨s, rfl, hne, heq⟩
  · exact absurd h0 h
  · rw [heq]
    refine ⟨rfl, ?_⟩
    cases hc : (stripEdgeSlashes (jsTrim s)).getLast? with
    | none => exact absurd (List.getLast?_eq_none_iff.mp hc) hne
    | some a =>
      have ha : isSlash a = false := stripEdgeSlashes_getLast (jsTrim s) a hc
      have hgl : ('/' :: stripEdgeSlashes (jsTrim s)).getLast? = some a := by
        rw [show ('/' :: stripEdgeSlashes (jsTrim s)) =
            ['/'] ++ stripEdgeSlashes (jsTrim s) from rfl,
          List.getLast?_append, hc]
        rfl
      rw [hgl]
      intro hcontra
      rw [Option.some.injEq] at hcontra
      subst hcontra
      simp [isSlash] at ha

/-- C7 witness: a concrete run of the theorem, at input `app`. -/
theorem C7_requestPrefix_shape_witness :
    normalizeRequestPrefix (some ['a', 'p', 'p']) ≠ [] ∧
    ((normalizeRequestPrefix (some ['a', 'p', 'p'])).head? = some '/' ∧
      (normalizeRequestPrefix (some ['a', 'p', 'p'])).getLast? ≠ some '/') :=
  ⟨by decide, C7_requestPrefix_shape (some ['a', 'p', 'p']) (by decide)⟩

/-- C8 (counterexample): re-stripping is not idempotent as claimed.  For
the input `/ /` (slash, space, slash) the router base is `/ /` itself;
slicing off the outer slashes leaves a single space, which trims to
empty and re-normalizes to `/`, not to `/ /`: stripping the edge slashes
exposed whitespace that the first trim could not see. -/
theorem C8_counterexample :
    normalizeRouterBase (some (sliceOneToMinusOne (normalizeRouterBase (some ['/', ' ', '/'])))) ≠
      normalizeRouterBase (some ['/', ' ', '/']) := by decide

/-- C8 (amended): re-stripping is idempotent whenever the sliced result
`normalizeRouterBase(x).slice(1,-1)` is already whitespace-trimmed (in
particular whenever no whitespace of `x` is nested inside its edge
slash runs); with such nested whitespace a second pass strips further. -/
theorem C8_restrip_idempotent (b : Option (List Char))
    (h : jsTrim (sliceOneToMinusOne (normalizeRouterBase b)) =
      sliceOneToMinusOne (normalizeRouterBase b)) :
    normalizeRouterBase (some (sliceOneToMinusOne (normalizeRouterBase b))) =
      normalizeRouterBase b := by
  rcases normalizeRouterBase_cases b with h0 | ⟨s, rfl, hne, heq⟩
  · rw [h0]
    decide
  · rw [heq] at h ⊢
    have hslice : sliceOneToMinusOne (('/' :: stripEdgeSlashes (jsTrim s)) ++ ['/']) =
        stripEdgeSlashes (jsTrim s) := by
      unfold sliceOneToMinusOne
      rw [List.cons_append, List.drop_one, List.tail_cons, List.dropLast_concat]
    rw [hslice] at h ⊢
    have hhead : ∀ a, (stripEdgeSlashes (jsTrim s)).head? = some a → isSlash a = false :=
      stripEdgeSlashes_head (jsTrim s)
    have hlast : ∀ a, (stripEdgeSlashes (jsTrim s)).getLast? = some a → isSlash a = false :=
      stripEdgeSlashes_getLast (jsTrim s)
    have hslash : stripEdgeSlashes (jsTrim s) ≠ ['/'] := by
      intro hcc
      have hcontra := hhead '/' (by rw [hcc]; rfl)
      simp [isSlash] at hcontra
    have hfix : stripEdgeSlashes (jsTrim (stripEdgeSlashes (jsTrim s))) =
        stripEdgeSlashes (jsTrim s) := by
      rw [h]
      exact stripEdgeSlashes_eq_self (stripEdgeSlashes (jsTrim s)) hhead hlast
    have hcond : ¬(stripEdgeSlashes (jsTrim s) = [] ∨
        jsTrim (stripEdgeSlashes (jsTrim s)) = [] ∨ stripEdgeSlashes (jsTrim s) = ['/']) := by
      rw [h]
      simp [hne, hslash]
    rw [normalizeRouterBase_some, if_neg hcond, if_neg (by rw [hfix]; exact hne), hfix]

/-- C8 witness: a concrete run of the amended theorem, at input `app`. -/
theorem C8_restrip_idempotent_witness :
    jsTrim (sliceOneToMinusOne (normalizeRouterBase (some ['a', 'p', 'p']))) =
      sliceOneToMinusOne (normalizeRouterBase (some ['a', 'p', 'p'])) ∧
    normalizeRouterBase
        (some (sliceOneToMinusOne (normalizeRouterBase (some ['a', 'p', 'p'])))) =
      normalizeRouterBase (some ['a', 'p', 'p']) :=
  ⟨by decide, C8_restrip_idempotent (some ['a', 'p', 'p']) (by decide)⟩

/-- C9: the concrete cases of the spec: `/easy-mcp/`, `app`, `///`,
`  /v2/api/  ` (two spaces on each side) and a missing value normalize
to the documented router bases and request prefixes. -/
theorem C9_concrete_cases :
    normalizeRouterBase (some ['/', 'e', 'a', 's', 'y', '-', 'm', 'c', 'p', '/']) =
      ['/', 'e', 'a', 's', 'y', '-', 'm', 'c', 'p', '/'] ∧
    normalizeRequestPrefix (some ['/', 'e', 'a', 's', 'y', '-', 'm', 'c', 'p', '/']) =
      ['/', 'e', 'a', 's', 'y', '-', 'm', 'c', 'p'] ∧
    normalizeRouterBase (some ['a', 'p', 'p']) = ['/', 'a', 'p', 'p', '/'] ∧
    normalizeRequestPrefix (some ['a', 'p', 'p']) = ['/', 'a', 'p', 'p'] ∧
    normalizeRouterBase (some ['/', '/', '/']) = ['/'] ∧
    normalizeRequestPrefix (some ['/', '/', '/']) = [] ∧
    normalizeRouterBase (some [' ', ' ', '/', 'v', '2', '/', 'a', 'p', 'i', '/', ' ', ' ']) =
      ['/', 'v', '2', '/', 'a', 'p', 'i', '/'] ∧
    normalizeRequestPrefix (some [' ', ' ', '/', 'v', '2', '/', 'a', 'p', 'i', '/', ' ', ' ']) =
      ['/', 'v', '2', '/', 'a', 'p', 'i'] ∧
    normalizeRouterBase none = ['/'] ∧
    normalizeRequestPrefix none = [] := by
  decide

/-- C10: on every input the router base is exactly the request prefix
with a single `/` appended; the two derived forms never diverge beyond
the trailing slash. -/
theorem C10_routerBase_eq_requestPrefix_concat (b : Option (List Char)) :
    normalizeRouterBase b = normalizeRequestPrefix b ++ ['/'] := by
  match b with
  | none => rfl
  | some s =>
    rw [normalizeRouterBase_some, normalizeRequestPrefix_some]
    by_cases h1 : s = [] ∨ jsTrim s = [] ∨ s = ['/']
    · simp [h1]
    · by_cases h2 : stripEdgeSlashes (jsTrim s) = [] <;> simp [h1, h2]

end EasyMcp
